import Mathlib

/-!
Shallow embedding of the log-delivery stream strategy
(logs/sender/stream_strategy.go) and of the Prometheus gauge/counter
sample extraction (parser/prometheus/parser.go) of the categraf
repository, with proofs about the specified behaviour.

Channels are modelled as lists: the input channel is the list of
messages received before the channel closes; the output channel is the
list of writes performed.  The injected sink `send func([]byte) error`
is modelled as an oracle `Nat → List Nat → Option ε` giving the result
of the k-th sink invocation on a given content (a Go closure may carry
state, so the result may depend on the invocation index); `none` is a
nil error (success), `some e` a failure with error value `e`.  The
error classifier `shouldStopSending` (defined outside the given
sources) is an opaque parameter `ε → Bool`.  Every externally
observable action of `Send` is recorded in an event trace.
-/

namespace Categraf

/-- A log message: opaque content bytes, an optional origin (the identity
of the LogSource whose LatencyStats receives the latency sample) and the
value `GetLatency()` returns for it (computed by code outside the given
sources from wall-clock time; modelled as a per-message datum). -/
structure Message where
  content : List Nat
  origin : Option Nat
  latency : Int
deriving DecidableEq, Repr

/-- `GetLatency` of message.Message, modelled as the per-message datum
recorded in the `latency` field. -/
def Message.GetLatency (m : Message) : Int := m.latency

/-- Externally observable actions of a strategy run.
`addLatency o l` is `Origin.LogSource.LatencyStats.Add(l)` for origin `o`;
`sinkCall c r` is an invocation `send(c)` returning `r`;
`logError e` is the `log.Printf` on a non-fatal send error;
`writeOutput m` is `outputChan <- m`;
`closeOutput` is the action of closing the output channel — it is part
of the alphabet so that its absence from every trace is a provable
statement. -/
inductive Event (ε : Type) where
  | addLatency (origin : Nat) (latency : Int)
  | sinkCall (content : List Nat) (result : Option ε)
  | logError (e : ε)
  | writeOutput (m : Message)
  | closeOutput
deriving DecidableEq, Repr

/-- The body of `streamStrategy.Send`, one loop iteration per message,
threading the sink-invocation counter `k`.  Mirrors the Go source:

for message := range inputChan ... if message.Origin != nil then
LatencyStats.Add(GetLatency) ... err := send(message.Content) ... if err
!= nil then (if shouldStopSending(err) then return; log.Printf(...)) ...
outputChan <- message. -/
def sendLoop {ε : Type} (shouldStopSending : ε → Bool)
    (send : Nat → List Nat → Option ε) :
    List Message → Nat → List (Event ε)
  | [], _ => []
  | msg :: rest, k =>
    let pre : List (Event ε) :=
      match msg.origin with
      | some o => [Event.addLatency o msg.GetLatency]
      | none => []
    match send k msg.content with
    | some e =>
      if shouldStopSending e then
        pre ++ [Event.sinkCall msg.content (some e)]
      else
        pre ++ [Event.sinkCall msg.content (some e), Event.logError e,
                Event.writeOutput msg]
          ++ sendLoop shouldStopSending send rest (k + 1)
    | none =>
      pre ++ [Event.sinkCall msg.content none, Event.writeOutput msg]
        ++ sendLoop shouldStopSending send rest (k + 1)

namespace streamStrategy

/-- `streamStrategy.Send`: runs the forwarding loop over the whole input
channel, starting with sink-invocation counter 0, and returns the trace
of observable actions. -/
def Send {ε : Type} (shouldStopSending : ε → Bool)
    (send : Nat → List Nat → Option ε) (inputChan : List Message) :
    List (Event ε) :=
  sendLoop shouldStopSending send inputChan 0

/-- The context passed to `Flush`; only its cancellation status could
ever matter to a strategy. -/
structure Context where
  cancelled : Bool
deriving DecidableEq, Repr

/-- `streamStrategy.Flush`: the Go body is empty (`// nothing to do`),
so the trace of observable actions is empty for every context. -/
def Flush (ε : Type) (_ctx : Context) : List (Event ε) := []

end streamStrategy

/-- The sequence of messages written to the output channel in a trace. -/
def outputOf {ε : Type} (tr : List (Event ε)) : List Message :=
  tr.filterMap fun e =>
    match e with
    | Event.writeOutput m => some m
    | _ => none

/-- The sequence of contents passed to the sink in a trace. -/
def sinkContentsOf {ε : Type} (tr : List (Event ε)) : List (List Nat) :=
  tr.filterMap fun e =>
    match e with
    | Event.sinkCall c _ => some c
    | _ => none

/-- The sequence of `LatencyStats.Add` calls in a trace:
(origin, latency value) pairs, in call order. -/
def addsOf {ε : Type} (tr : List (Event ε)) : List (Nat × Int) :=
  tr.filterMap fun e =>
    match e with
    | Event.addLatency o l => some (o, l)
    | _ => none

/-- Number of sink invocations in a trace. -/
def numSinkCalls {ε : Type} (tr : List (Event ε)) : Nat :=
  (sinkContentsOf tr).length

/-- Number of `LatencyStats.Add` calls in a trace. -/
def countAdds {ε : Type} (tr : List (Event ε)) : Nat :=
  (addsOf tr).length

/-- The prefix of a trace strictly before its `i`-th sink invocation
(0-indexed); the whole trace if it has at most `i` sink invocations. -/
def beforeSink {ε : Type} : Nat → List (Event ε) → List (Event ε)
  | _, [] => []
  | 0, Event.sinkCall _ _ :: _ => []
  | n + 1, Event.sinkCall c r :: tr => Event.sinkCall c r :: beforeSink n tr
  | n, Event.addLatency o l :: tr => Event.addLatency o l :: beforeSink n tr
  | n, Event.logError e :: tr => Event.logError e :: beforeSink n tr
  | n, Event.writeOutput m :: tr => Event.writeOutput m :: beforeSink n tr
  | n, Event.closeOutput :: tr => Event.closeOutput :: beforeSink n tr

/-- Number of messages removed from the input channel before `Send`
returns: all of them unless a fatal error stops the loop at some
message, which is still counted as processed. -/
def processedCount {ε : Type} (shouldStopSending : ε → Bool)
    (send : Nat → List Nat → Option ε) :
    List Message → Nat → Nat
  | [], _ => 0
  | msg :: rest, k =>
    match send k msg.content with
    | some e =>
      if shouldStopSending e then 1
      else processedCount shouldStopSending send rest (k + 1) + 1
    | none => processedCount shouldStopSending send rest (k + 1) + 1

section Fixtures

/-- Concrete classifier for witnesses: error value 0 is fatal, every
other error value is transient. -/
def stopIfZero : Nat → Bool := fun e => e == 0

/-- Concrete message with origin 0. -/
def msgA : Message := ⟨[1], some 0, 5⟩

/-- Concrete message without origin. -/
def msgB : Message := ⟨[2], none, 7⟩

/-- Concrete message with origin 1. -/
def msgC : Message := ⟨[3], some 1, 9⟩

/-- Sink oracle that always succeeds. -/
def sinkOk : Nat → List Nat → Option Nat := fun _ _ => none

/-- Sink oracle failing transiently (error 7) on invocation 1 only. -/
def sinkTransAt1 : Nat → List Nat → Option Nat :=
  fun i _ => if i = 1 then some 7 else none

/-- Sink oracle failing fatally (error 0) on invocation 1 only. -/
def sinkFatalAt1 : Nat → List Nat → Option Nat :=
  fun i _ => if i = 1 then some 0 else none

end Fixtures

/-!
Embedding of the gauge/counter/untyped path of the Prometheus parser
(parser/prometheus/parser.go).  A protobuf metric value is a float64;
the parser never computes with the value, it only branches on
`math.IsNaN` and stores it, so the value type is an abstract `V`
together with a predicate `isNaN : V → Bool` standing for
`math.IsNaN`.  `prom.BuildMetric` lives outside the given sources and
is passed as an opaque function.
-/

/-- The fields of a dto.Metric that `getNameAndValue` inspects: the
optional Gauge, Counter and Untyped values (`some v` when the pointer is
non-nil, carrying the value `GetValue()` returns). -/
structure PMetric (V : Type) where
  gauge : Option V
  counter : Option V
  untyped : Option V
deriving DecidableEq, Repr

/-- A types.Sample as produced by the gauge/counter path: the built
metric name, the value and the tags. -/
structure Sample (V : Type) where
  metric : String
  value : V
  labels : List (String × String)
deriving DecidableEq, Repr

/-- `types.SampleList.PushFront`: prepends a sample to the list. -/
def pushFront {V : Type} (slist : List (Sample V)) (s : Sample V) :
    List (Sample V) :=
  s :: slist

/-- `getNameAndValue` of parser/prometheus/parser.go: inspects Gauge,
then Counter, then Untyped; a NaN value yields no field, a non-NaN value
yields the single field `metricName ↦ value`.  The Go map has at most
one entry, so it is modelled as an association list. -/
def getNameAndValue {V : Type} ( isNaN : V → Bool) (m : PMetric V)
    (metricName : String) : List (String × V) :=
  match m.gauge with
  | some v => if isNaN v then [] else [(metricName, v)]
  | none =>
    match m.counter with
    | some v => if isNaN v then [] else [(metricName, v)]
    | none =>
      match m.untyped with
      | some v => if isNaN v then [] else [(metricName, v)]
      | none => []

/-- `Parser.handleGaugeCounter`: pushes one sample per field returned by
`getNameAndValue`, building the metric name with the parser's name
prefix when the field name does not already start with it.
`buildMetric` stands for the external `prom.BuildMetric`. -/
def handleGaugeCounter {V : Type} ( isNaN : V → Bool)
    (buildMetric : String → String → String → String) (namePfx : String)
    (m : PMetric V) (tags : List (String × String)) (metricName : String)
    (slist : List (Sample V)) : List (Sample V) :=
  (getNameAndValue isNaN m metricName).foldl
    (fun sl mv =>
      if ¬ mv.fst.startsWith namePfx then
        pushFront sl ⟨buildMetric namePfx mv.fst "", mv.snd, tags⟩
      else
        pushFront sl ⟨buildMetric "" mv.fst "", mv.snd, tags⟩)
    slist

/-- The value `getNameAndValue` selects: the Gauge value if the Gauge
field is set, else the Counter value if set, else the Untyped value if
set. -/
def primaryValue {V : Type} (m : PMetric V) : Option V :=
  match m.gauge with
  | some v => some v
  | none =>
    match m.counter with
    | some v => some v
    | none => m.untyped

section Lemmas

variable {ε : Type}

@[simp] lemma outputOf_nil : outputOf ([] : List (Event ε)) = [] := rfl

@[simp] lemma outputOf_cons_add (o : Nat) (l : Int) (tr : List (Event ε)) :
    outputOf (Event.addLatency o l :: tr) = outputOf tr := rfl

@[simp] lemma outputOf_cons_sink (c : List Nat) (r : Option ε)
    (tr : List (Event ε)) :
    outputOf (Event.sinkCall c r :: tr) = outputOf tr := rfl

@[simp] lemma outputOf_cons_log (e : ε) (tr : List (Event ε)) :
    outputOf (Event.logError e :: tr) = outputOf tr := rfl

@[simp] lemma outputOf_cons_write (m : Message) (tr : List (Event ε)) :
    outputOf (Event.writeOutput m :: tr) = m :: outputOf tr := rfl

@[simp] lemma outputOf_cons_close (tr : List (Event ε)) :
    outputOf (Event.closeOutput :: tr) = outputOf tr := rfl

@[simp] lemma sinkContentsOf_nil : sinkContentsOf ([] : List (Event ε)) = [] :=
  rfl

@[simp] lemma sinkContentsOf_cons_add (o : Nat) (l : Int)
    (tr : List (Event ε)) :
    sinkContentsOf (Event.addLatency o l :: tr) = sinkContentsOf tr := rfl

@[simp] lemma sinkContentsOf_cons_sink (c : List Nat) (r : Option ε)
    (tr : List (Event ε)) :
    sinkContentsOf (Event.sinkCall c r :: tr) = c :: sinkContentsOf tr := rfl

@[simp] lemma sinkContentsOf_cons_log (e : ε) (tr : List (Event ε)) :
    sinkContentsOf (Event.logError e :: tr) = sinkContentsOf tr := rfl

@[simp] lemma sinkContentsOf_cons_write (m : Message) (tr : List (Event ε)) :
    sinkContentsOf (Event.writeOutput m :: tr) = sinkContentsOf tr := rfl

@[simp] lemma sinkContentsOf_cons_close (tr : List (Event ε)) :
    sinkContentsOf (Event.closeOutput :: tr) = sinkContentsOf tr := rfl

@[simp] lemma addsOf_nil : addsOf ([] : List (Event ε)) = [] := rfl

@[simp] lemma addsOf_cons_add (o : Nat) (l : Int) (tr : List (Event ε)) :
    addsOf (Event.addLatency o l :: tr) = (o, l) :: addsOf tr := rfl

@[simp] lemma addsOf_cons_sink (c : List Nat) (r : Option ε)
    (tr : List (Event ε)) :
    addsOf (Event.sinkCall c r :: tr) = addsOf tr := rfl

@[simp] lemma addsOf_cons_log (e : ε) (tr : List (Event ε)) :
    addsOf (Event.logError e :: tr) = addsOf tr := rfl

@[simp] lemma addsOf_cons_write (m : Message) (tr : List (Event ε)) :
    addsOf (Event.writeOutput m :: tr) = addsOf tr := rfl

@[simp] lemma addsOf_cons_close (tr : List (Event ε)) :
    addsOf (Event.closeOutput :: tr) = addsOf tr := rfl

lemma outputOf_append (a b : List (Event ε)) :
    outputOf (a ++ b) = outputOf a ++ outputOf b := by
  simp [outputOf]

lemma sinkContentsOf_append (a b : List (Event ε)) :
    sinkContentsOf (a ++ b) = sinkContentsOf a ++ sinkContentsOf b := by
  simp [sinkContentsOf]

lemma addsOf_append (a b : List (Event ε)) :
    addsOf (a ++ b) = addsOf a ++ addsOf b := by
  simp [addsOf]

@[simp] lemma countAdds_nil : countAdds ([] : List (Event ε)) = 0 := rfl

@[simp] lemma countAdds_cons_add (o : Nat) (l : Int) (tr : List (Event ε)) :
    countAdds (Event.addLatency o l :: tr) = countAdds tr + 1 := by
  simp [countAdds]

@[simp] lemma countAdds_cons_sink (c : List Nat) (r : Option ε)
    (tr : List (Event ε)) :
    countAdds (Event.sinkCall c r :: tr) = countAdds tr := by
  simp [countAdds]

@[simp] lemma countAdds_cons_log (e : ε) (tr : List (Event ε)) :
    countAdds (Event.logError e :: tr) = countAdds tr := by
  simp [countAdds]

@[simp] lemma countAdds_cons_write (m : Message) (tr : List (Event ε)) :
    countAdds (Event.writeOutput m :: tr) = countAdds tr := by
  simp [countAdds]

@[simp] lemma countAdds_cons_close (tr : List (Event ε)) :
    countAdds (Event.closeOutput :: tr) = countAdds tr := by
  simp [countAdds]

@[simp] lemma numSinkCalls_nil : numSinkCalls ([] : List (Event ε)) = 0 := rfl

@[simp] lemma numSinkCalls_cons_add (o : Nat) (l : Int)
    (tr : List (Event ε)) :
    numSinkCalls (Event.addLatency o l :: tr) = numSinkCalls tr := by
  simp [numSinkCalls]

@[simp] lemma numSinkCalls_cons_sink (c : List Nat) (r : Option ε)
    (tr : List (Event ε)) :
    numSinkCalls (Event.sinkCall c r :: tr) = numSinkCalls tr + 1 := by
  simp [numSinkCalls]

@[simp] lemma numSinkCalls_cons_log (e : ε) (tr : List (Event ε)) :
    numSinkCalls (Event.logError e :: tr) = numSinkCalls tr := by
  simp [numSinkCalls]

@[simp] lemma numSinkCalls_cons_write (m : Message) (tr : List (Event ε)) :
    numSinkCalls (Event.writeOutput m :: tr) = numSinkCalls tr := by
  simp [numSinkCalls]

@[simp] lemma numSinkCalls_cons_close (tr : List (Event ε)) :
    numSinkCalls (Event.closeOutput :: tr) = numSinkCalls tr := by
  simp [numSinkCalls]

/-- If no sink result is classified as fatal, the loop forwards every
message to output and invokes the sink once per message. -/
lemma sendLoop_no_fatal (shouldStop : ε → Bool)
    (send : Nat → List Nat → Option ε)
    (h : ∀ i c e, send i c = some e → shouldStop e = false) :
    ∀ (input : List Message) (k : Nat),
      outputOf (sendLoop shouldStop send input k) = input ∧
      sinkContentsOf (sendLoop shouldStop send input k)
        = input.map Message.content := by
  intro input
  induction input with
  | nil => intro k; simp [sendLoop, outputOf, sinkContentsOf]
  | cons msg rest ih =>
    intro k
    cases hs : send k msg.content with
    | some e =>
      have hf : shouldStop e = false := h k msg.content e hs
      cases ho : msg.origin with
      | some o =>
        simp [sendLoop, hs, hf, ho, outputOf_append, sinkContentsOf_append,
          (ih (k + 1)).1, (ih (k + 1)).2]
      | none =>
        simp [sendLoop, hs, hf, ho, outputOf_append, sinkContentsOf_append,
          (ih (k + 1)).1, (ih (k + 1)).2]
    | none =>
      cases ho : msg.origin with
      | some o =>
        simp [sendLoop, hs, ho, outputOf_append, sinkContentsOf_append,
          (ih (k + 1)).1, (ih (k + 1)).2]
      | none =>
        simp [sendLoop, hs, ho, outputOf_append, sinkContentsOf_append,
          (ih (k + 1)).1, (ih (k + 1)).2]

/-- Behaviour of the loop when invocation `k` (absolute index) returns a
fatal error and every earlier invocation succeeds: starting the counter
at `j ≤ k`, the loop forwards the first `k - j` messages and invokes the
sink on the first `k - j + 1` of them. -/
lemma sendLoop_fatal_at (shouldStop : ε → Bool)
    (send : Nat → List Nat → Option ε) (e : ε) (k : Nat)
    (hs : shouldStop e = true)
    (hbefore : ∀ i c, i < k → send i c = none)
    (hat : ∀ c, send k c = some e) :
    ∀ (input : List Message) (j : Nat), j ≤ k → k - j < input.length →
      outputOf (sendLoop shouldStop send input j) = input.take (k - j) ∧
      sinkContentsOf (sendLoop shouldStop send input j)
        = (input.take (k - j + 1)).map Message.content := by
  intro input
  induction input with
  | nil => intro j hj hlen; simp at hlen
  | cons msg rest ih =>
    intro j hj hlen
    by_cases hjk : j = k
    · subst hjk
      have hsend : send j msg.content = some e := hat msg.content
      cases ho : msg.origin with
      | some o =>
        simp [sendLoop, hsend, hs, ho, outputOf_append, sinkContentsOf_append]
      | none =>
        simp [sendLoop, hsend, hs, ho, outputOf_append, sinkContentsOf_append]
    · have hjlt : j < k := lt_of_le_of_ne hj hjk
      have hsend : send j msg.content = none := hbefore j msg.content hjlt
      have hj1 : j + 1 ≤ k := hjlt
      have hlen1 : k - (j + 1) < rest.length := by
        simp at hlen; omega
      obtain ⟨ih1, ih2⟩ := ih (j + 1) hj1 hlen1
      have htake : (msg :: rest).take (k - j) = msg :: rest.take (k - (j + 1)) := by
        have : k - j = (k - (j + 1)) + 1 := by omega
        simp [this]
      have htake2 : (msg :: rest).take (k - j + 1)
          = msg :: rest.take (k - (j + 1) + 1) := by
        have : k - j + 1 = (k - (j + 1) + 1) + 1 := by omega
        simp [this]
      cases ho : msg.origin with
      | some o =>
        simp [sendLoop, hsend, ho, outputOf_append, sinkContentsOf_append,
          ih1, ih2, htake, htake2]
      | none =>
        simp [sendLoop, hsend, ho, outputOf_append, sinkContentsOf_append,
          ih1, ih2, htake, htake2]

/-- The sequence of `LatencyStats.Add` calls performed by the loop is
exactly one call per processed message that has an origin, with that
message's `GetLatency` value, in processing order. -/
lemma addsOf_sendLoop (shouldStop : ε → Bool)
    (send : Nat → List Nat → Option ε) :
    ∀ (input : List Message) (k : Nat),
      addsOf (sendLoop shouldStop send input k)
        = (input.take (processedCount shouldStop send input k)).filterMap
            (fun m => m.origin.map fun o => (o, m.GetLatency)) := by
  intro input
  induction input with
  | nil => intro k; simp [sendLoop, processedCount]
  | cons msg rest ih =>
    intro k
    cases hs : send k msg.content with
    | some e =>
      cases hf : shouldStop e with
      | true =>
        cases ho : msg.origin <;>
          simp [sendLoop, processedCount, hs, hf, ho, addsOf_append]
      | false =>
        cases ho : msg.origin <;>
          simp [sendLoop, processedCount, hs, hf, ho, addsOf_append, ih]
    | none =>
      cases ho : msg.origin <;>
        simp [sendLoop, processedCount, hs, ho, addsOf_append, ih]

/-- The sink-call sequence and the contents forwarded to output do not
depend on the origins of the messages: reassigning every origin (in
particular erasing it) changes neither. -/
lemma sendLoop_origin_independent (shouldStop : ε → Bool)
    (send : Nat → List Nat → Option ε) (g : Message → Option Nat) :
    ∀ (input : List Message) (k : Nat),
      sinkContentsOf (sendLoop shouldStop send
          (input.map fun m => { m with origin := g m }) k)
        = sinkContentsOf (sendLoop shouldStop send input k) ∧
      (outputOf (sendLoop shouldStop send
          (input.map fun m => { m with origin := g m }) k)).map
            Message.content
        = (outputOf (sendLoop shouldStop send input k)).map
            Message.content := by
  intro input
  induction input with
  | nil => intro k; simp [sendLoop]
  | cons msg rest ih =>
    intro k
    cases hs : send k msg.content with
    | some e =>
      cases hf : shouldStop e with
      | true =>
        cases ho : msg.origin <;> cases hgo : g msg <;>
          simp [sendLoop, Message.GetLatency, hs, hf, ho, hgo,
            sinkContentsOf_append, outputOf_append]
      | false =>
        cases ho : msg.origin <;> cases hgo : g msg <;>
          simp [sendLoop, Message.GetLatency, hs, hf, ho, hgo,
            sinkContentsOf_append, outputOf_append,
            (ih (k + 1)).1, (ih (k + 1)).2]
    | none =>
      cases ho : msg.origin <;> cases hgo : g msg <;>
        simp [sendLoop, Message.GetLatency, hs, ho, hgo,
          sinkContentsOf_append, outputOf_append,
          (ih (k + 1)).1, (ih (k + 1)).2]

/-- Ordering of latency accounting: the number of `Add` calls performed
strictly before the `i`-th sink invocation equals the number of
origin-carrying messages among the first `i + 1` messages — the `Add`
for a message always precedes that message's own sink call. -/
lemma countAdds_beforeSink_sendLoop (shouldStop : ε → Bool)
    (send : Nat → List Nat → Option ε) :
    ∀ (input : List Message) (k i : Nat),
      i < numSinkCalls (sendLoop shouldStop send input k) →
      countAdds (beforeSink i (sendLoop shouldStop send input k))
        = (input.take (i + 1)).countP (fun m => m.origin.isSome) := by
  intro input
  induction input with
  | nil => intro k i h; simp [sendLoop] at h
  | cons msg rest ih =>
    intro k i h
    cases hs : send k msg.content with
    | some e =>
      cases hf : shouldStop e with
      | true =>
        simp [sendLoop, hs, hf] at h
        have hi : i = 0 := by
          cases ho : msg.origin <;> simp [ho] at h <;> omega
        subst hi
        cases ho : msg.origin <;>
          simp [sendLoop, hs, hf, ho, beforeSink]
      | false =>
        cases i with
        | zero =>
          cases ho : msg.origin <;>
            simp [sendLoop, hs, hf, ho, beforeSink]
        | succ n =>
          have hn : n < numSinkCalls (sendLoop shouldStop send rest (k + 1)) := by
            cases ho : msg.origin <;>
              simp [sendLoop, hs, hf, ho] at h <;> omega
          have ihn := ih (k + 1) n hn
          cases ho : msg.origin <;>
            simp [sendLoop, hs, hf, ho, beforeSink, ihn]
    | none =>
      cases i with
      | zero =>
        cases ho : msg.origin <;>
          simp [sendLoop, hs, ho, beforeSink]
      | succ n =>
        have hn : n < numSinkCalls (sendLoop shouldStop send rest (k + 1)) := by
          cases ho : msg.origin <;>
            simp [sendLoop, hs, ho] at h <;> omega
        have ihn := ih (k + 1) n hn
        cases ho : msg.origin <;>
          simp [sendLoop, hs, ho, beforeSink, ihn]

end Lemmas

/-- C3: if every sink invocation succeeds, the sequence written to
output equals the input sequence (same messages, same order, no
duplicates, no omissions). -/
theorem claim_C3_order_preservation {ε : Type} (shouldStop : ε → Bool)
    (send : Nat → List Nat → Option ε) (input : List Message)
    (h : ∀ i c, send i c = none) :
    outputOf (streamStrategy.Send shouldStop send input) = input :=
  (sendLoop_no_fatal shouldStop send
    (fun i c e hc => by rw [h i c] at hc; cases hc) input 0).1

/-- Witness for C3 at a concrete input: a three-message input with an
always-succeeding sink is reproduced on output verbatim. -/
theorem claim_C3_witness :
    (∀ i c, sinkOk i c = none) ∧
      outputOf (streamStrategy.Send stopIfZero sinkOk [msgA, msgB, msgC])
        = [msgA, msgB, msgC] :=
  ⟨fun _ _ => rfl,
    claim_C3_order_preservation stopIfZero sinkOk [msgA, msgB, msgC]
      (fun _ _ => rfl)⟩

/-- C1 counterexample: with input [msgA, msgB, msgC] and a sink that
fails transiently on message index 1 only, the claim predicts output
[msgA, msgC]; the code writes the transiently-failed message to output
as well (`outputChan <- message` sits after, and outside, the error
branch), so the output is [msgA, msgB, msgC]. -/
theorem claim_C1_counterexample :
    outputOf (streamStrategy.Send stopIfZero sinkTransAt1 [msgA, msgB, msgC])
        = [msgA, msgB, msgC] ∧
      outputOf (streamStrategy.Send stopIfZero sinkTransAt1
          [msgA, msgB, msgC])
        ≠ [msgA, msgC] := by
  constructor <;> decide

/-- C1 amended: if the sink fails with a transient (non-fatal) error on
invocation k only and succeeds on all others, `Send` writes ALL messages
— including message k — to output in the original order, and continues
processing the messages after k (the sink is invoked once per input
message). -/
theorem claim_C1_transient_continues {ε : Type} (shouldStop : ε → Bool)
    (send : Nat → List Nat → Option ε) (e : ε) (k : Nat)
    (input : List Message)
    (ht : shouldStop e = false)
    (hat : ∀ c, send k c = some e)
    (hother : ∀ i c, i ≠ k → send i c = none) :
    outputOf (streamStrategy.Send shouldStop send input) = input ∧
      sinkContentsOf (streamStrategy.Send shouldStop send input)
        = input.map Message.content := by
  refine sendLoop_no_fatal shouldStop send ?_ input 0
  intro i c e0 hc
  by_cases hik : i = k
  · subst hik
    rw [hat c] at hc
    cases hc
    exact ht
  · rw [hother i c hik] at hc
    cases hc

/-- Witness for the amended C1: transient failure on message index 1 of
a three-message input; all three messages appear on output and the sink
is invoked three times. -/
theorem claim_C1_witness :
    stopIfZero 7 = false ∧
      outputOf (streamStrategy.Send stopIfZero sinkTransAt1
          [msgA, msgB, msgC])
        = [msgA, msgB, msgC] :=
  ⟨rfl,
    (claim_C1_transient_continues stopIfZero sinkTransAt1 7 1
        [msgA, msgB, msgC] rfl (fun _ => rfl)
        (fun i c h => by simp [sinkTransAt1, h])).1⟩

/-- C2 counterexample: with input [msgA, msgB, msgC] and a fatal error
on message index 1, output is exactly [msgA] — but message 1 (msgB) IS
passed to the sink (its invocation is what returns the fatal error),
contradicting the claim that no message with index ≥ k is ever passed to
the sink. -/
theorem claim_C2_counterexample :
    outputOf (streamStrategy.Send stopIfZero sinkFatalAt1 [msgA, msgB, msgC])
        = [msgA] ∧
      msgB.content ∈ sinkContentsOf
        (streamStrategy.Send stopIfZero sinkFatalAt1 [msgA, msgB, msgC]) := by
  constructor <;> decide

/-- C2 amended: if the sink succeeds on every invocation before k and
returns a fatal error on invocation k (with k < number of input
messages), `Send` returns: output contains exactly the messages with
index < k, and the sink is invoked exactly for the messages with index
≤ k — message k itself is passed to the sink (that invocation returns
the fatal error), while no message with index > k reaches the sink and
no message with index ≥ k reaches output. -/
theorem claim_C2_stop_on_fatal {ε : Type} (shouldStop : ε → Bool)
    (send : Nat → List Nat → Option ε) (e : ε) (k : Nat)
    (input : List Message)
    (hs : shouldStop e = true)
    (hbefore : ∀ i c, i < k → send i c = none)
    (hat : ∀ c, send k c = some e)
    (hk : k < input.length) :
    outputOf (streamStrategy.Send shouldStop send input) = input.take k ∧
      sinkContentsOf (streamStrategy.Send shouldStop send input)
        = (input.take (k + 1)).map Message.content := by
  have h := sendLoop_fatal_at shouldStop send e k hs hbefore hat input 0
    (Nat.zero_le k) (by simpa using hk)
  simpa [streamStrategy.Send] using h

/-- Witness for the amended C2: fatal error on message index 1 of a
three-message input; output is the first message only. -/
theorem claim_C2_witness :
    stopIfZero 0 = true ∧
      outputOf (streamStrategy.Send stopIfZero sinkFatalAt1
          [msgA, msgB, msgC])
        = [msgA, msgB, msgC].take 1 :=
  ⟨rfl,
    (claim_C2_stop_on_fatal stopIfZero sinkFatalAt1 0 1 [msgA, msgB, msgC]
        rfl
        (fun i c h => by
          have hne : i ≠ 1 := by omega
          simp [sinkFatalAt1, hne])
        (fun _ => rfl) (by decide)).1⟩

/-- C4: latency accounting.  First conjunct: the sequence of
`LatencyStats.Add` calls made by `Send` is exactly one call — with the
message's computed latency, to the message's origin — per processed
message that has an origin; messages with a nil origin contribute no
`Add` call.  Second and third conjuncts: reassigning the origins of the
input messages arbitrarily (in particular to nil) changes neither the
sink-call sequence nor the contents forwarded to output, so a message
without an origin is sent and forwarded identically to one with an
origin. -/
theorem claim_C4_latency_accounting {ε : Type} (shouldStop : ε → Bool)
    (send : Nat → List Nat → Option ε) (input : List Message)
    (g : Message → Option Nat) :
    addsOf (streamStrategy.Send shouldStop send input)
        = (input.take (processedCount shouldStop send input 0)).filterMap
            (fun m => m.origin.map fun o => (o, m.GetLatency)) ∧
      sinkContentsOf (streamStrategy.Send shouldStop send
          (input.map fun m => { m with origin := g m }))
        = sinkContentsOf (streamStrategy.Send shouldStop send input) ∧
      (outputOf (streamStrategy.Send shouldStop send
          (input.map fun m => { m with origin := g m }))).map Message.content
        = (outputOf (streamStrategy.Send shouldStop send input)).map
            Message.content :=
  ⟨addsOf_sendLoop shouldStop send input 0,
    (sendLoop_origin_independent shouldStop send g input 0).1,
    (sendLoop_origin_independent shouldStop send g input 0).2⟩

/-- C5: the `LatencyStats.Add` call for a message precedes that
message's sink invocation: before the `i`-th sink invocation the number
of `Add` calls already performed equals the number of origin-carrying
messages among the first `i + 1` input messages — in particular the
`Add` for the message of the `i`-th invocation has already happened,
and it happens exactly once even when that invocation then fails
transiently or fatally. -/
theorem claim_C5_add_before_sink {ε : Type} (shouldStop : ε → Bool)
    (send : Nat → List Nat → Option ε) (input : List Message) (i : Nat)
    (h : i < numSinkCalls (streamStrategy.Send shouldStop send input)) :
    countAdds (beforeSink i (streamStrategy.Send shouldStop send input))
      = (input.take (i + 1)).countP (fun m => m.origin.isSome) :=
  countAdds_beforeSink_sendLoop shouldStop send input 0 i h

/-- Witness for C5: on a three-message input whose second sink
invocation fails transiently, before sink invocation 1 exactly one
`Add` has happened (msgA has an origin, msgB does not). -/
theorem claim_C5_witness :
    1 < numSinkCalls (streamStrategy.Send stopIfZero sinkTransAt1
        [msgA, msgB, msgC]) ∧
      countAdds (beforeSink 1 (streamStrategy.Send stopIfZero sinkTransAt1
          [msgA, msgB, msgC]))
        = ([msgA, msgB, msgC].take 2).countP (fun m => m.origin.isSome) :=
  ⟨by decide,
    claim_C5_add_before_sink stopIfZero sinkTransAt1 [msgA, msgB, msgC] 1
      (by decide)⟩

/-- C8: `Send` (like `Flush`) returns no error value — in the model its
entire result is the event trace, and the caller-visible output channel
carries no error marker.  A run that stops on a fatal error at the end
of the input is indistinguishable, by its output, from a clean run on
the shorter input: the caller cannot tell a clean completion from a
fatal-error stop, and no delivery error escapes the loop (the trace is
always defined — nothing panics). -/
theorem claim_C8_fatal_indistinguishable {ε : Type} (shouldStop : ε → Bool)
    (send : Nat → List Nat → Option ε) (e : ε) (input : List Message)
    (m : Message)
    (hs : shouldStop e = true)
    (hbefore : ∀ i c, i < input.length → send i c = none)
    (hat : ∀ c, send input.length c = some e) :
    outputOf (streamStrategy.Send shouldStop send (input ++ [m]))
      = outputOf (streamStrategy.Send shouldStop (fun _ _ => none) input) := by
  have h1 := (sendLoop_fatal_at shouldStop send e input.length hs hbefore hat
    (input ++ [m]) 0 (Nat.zero_le _) (by simp)).1
  have h2 := (sendLoop_no_fatal (ε := ε) shouldStop (fun _ _ => none)
    (fun i c e0 hc => by simp at hc) input 0).1
  show outputOf (sendLoop shouldStop send (input ++ [m]) 0) = _
  rw [h1]
  show List.take (input.length - 0) (input ++ [m])
      = outputOf (sendLoop shouldStop (fun _ _ => none) input 0)
  rw [h2]
  simp

/-- Witness for C8: a fatal stop after one delivered message yields the
same output as a clean run on the one-message input. -/
theorem claim_C8_witness :
    stopIfZero 0 = true ∧
      outputOf (streamStrategy.Send stopIfZero sinkFatalAt1 [msgA, msgB])
        = outputOf (streamStrategy.Send stopIfZero
            (fun _ _ => none) [msgA]) :=
  ⟨rfl,
    claim_C8_fatal_indistinguishable stopIfZero sinkFatalAt1 0 [msgA] msgB
      rfl
      (fun i c h => by
        have hne : i ≠ 1 := by simp at h; omega
        simp [sinkFatalAt1, hne])
      (fun _ => rfl)⟩

/-- C10: for a metric whose selected value (Gauge, else Counter, else
Untyped) is NaN, `getNameAndValue` returns the empty field map and
`handleGaugeCounter` pushes no sample; for a non-NaN selected value
exactly one sample is pushed. -/
theorem claim_C10_nan_skipped {V : Type} ( isNaN : V → Bool)
    (buildMetric : String → String → String → String) (namePfx : String)
    (m : PMetric V) (tags : List (String × String)) (metricName : String)
    (slist : List (Sample V)) (v : V)
    (hv : primaryValue m = some v) :
    ( isNaN v = true →
      getNameAndValue isNaN m metricName = [] ∧
        handleGaugeCounter isNaN buildMetric namePfx m tags metricName slist
          = slist) ∧
    ( isNaN v = false →
      (handleGaugeCounter isNaN buildMetric namePfx m tags metricName
          slist).length = slist.length + 1) := by
  have main : ∀ w : V, v = w →
      ( isNaN v = true → getNameAndValue isNaN m metricName = []) ∧
      ( isNaN v = false →
        getNameAndValue isNaN m metricName = [(metricName, v)]) := by
    intro w hw
    subst hw
    cases hg : m.gauge with
    | some u =>
      have hu : v = u := by
        simp [primaryValue, hg] at hv
        exact hv.symm
      subst hu
      constructor <;> intro hnan <;> simp [getNameAndValue, hg, hnan]
    | none =>
      cases hc : m.counter with
      | some u =>
        have hu : v = u := by
          simp [primaryValue, hg, hc] at hv
          exact hv.symm
        subst hu
        constructor <;> intro hnan <;>
          simp [getNameAndValue, hg, hc, hnan]
      | none =>
        cases hun : m.untyped with
        | some u =>
          have hu : v = u := by
            simp [primaryValue, hg, hc, hun] at hv
            exact hv.symm
          subst hu
          constructor <;> intro hnan <;>
            simp [getNameAndValue, hg, hc, hun, hnan]
        | none =>
          simp [primaryValue, hg, hc, hun] at hv
  obtain ⟨hnanCase, hvalCase⟩ := main v rfl
  constructor
  · intro hnan
    refine ⟨hnanCase hnan, ?_⟩
    simp [handleGaugeCounter, hnanCase hnan]
  · intro hnan
    rw [handleGaugeCounter, hvalCase hnan]
    by_cases hsw : metricName.startsWith namePfx
    · simp [hsw, pushFront]
    · simp [hsw, pushFront]

/-- Witness for C10: a gauge metric with a non-NaN value (modelled NaN
predicate: value 0 is NaN) pushes exactly one sample onto an empty
sample list. -/
theorem claim_C10_witness :
    primaryValue (⟨some 3, none, none⟩ : PMetric Nat) = some 3 ∧
      (handleGaugeCounter (fun v => v == 0) (fun a b _ => a ++ b) "np"
          (⟨some 3, none, none⟩ : PMetric Nat) [] "m" []).length
        = List.length ([] : List (Sample Nat)) + 1 :=
  ⟨rfl,
    (claim_C10_nan_skipped (fun v => v == 0) (fun a b _ => a ++ b) "np"
        (⟨some 3, none, none⟩ : PMetric Nat) [] "m" [] 3 rfl).2 rfl⟩

/-- C6: `Flush` on the stream strategy performs no observable action for
any context, cancelled or not: it never invokes the sink, writes
nothing, records nothing. -/
theorem claim_C6_flush_noop (ε : Type) (ctx : streamStrategy.Context) :
    streamStrategy.Flush ε ctx = ([] : List (Event ε)) ∧
      sinkContentsOf (streamStrategy.Flush ε ctx) = [] := by
  constructor <;> rfl

/-- C7: when the input channel is closed with zero pending messages,
`Send` returns with an empty trace: the sink is never invoked, no
`LatencyStats.Add` call is made, and nothing is written to output. -/
theorem claim_C7_graceful_drain {ε : Type} (shouldStop : ε → Bool)
    (send : Nat → List Nat → Option ε) :
    sinkContentsOf (streamStrategy.Send shouldStop send []) = [] ∧
      addsOf (streamStrategy.Send shouldStop send []) = [] ∧
      outputOf (streamStrategy.Send shouldStop send []) = [] := by
  refine ⟨rfl, rfl, rfl⟩

/-- C9: on every execution path of `Send` — normal exit when the input
closes and early return on a fatal error — the output channel is never
closed. -/
theorem claim_C9_never_closes_output {ε : Type} (shouldStop : ε → Bool)
    (send : Nat → List Nat → Option ε) (input : List Message) :
    Event.closeOutput ∉ streamStrategy.Send shouldStop send input := by
  show Event.closeOutput ∉ sendLoop shouldStop send input 0
  generalize 0 = k
  induction input generalizing k with
  | nil => simp [sendLoop]
  | cons msg rest ih =>
    cases hs : send k msg.content with
    | some e =>
      cases hf : shouldStop e with
      | true =>
        cases ho : msg.origin <;> simp [sendLoop, hs, hf, ho]
      | false =>
        cases ho : msg.origin <;> simp [sendLoop, hs, hf, ho, ih]
    | none =>
      cases ho : msg.origin <;> simp [sendLoop, hs, ho, ih]

end Categraf
